import Mathlib

/-!
Verification development for `comp_L.c`: an impedance analyzer for a
capacitor/inductor measured with a reference resistor, and an
engineering-notation formatter (`eng`).

The formatter works on IEEE doubles using only exact decimal scalings,
`floor(log10 ·)`, `modf` and comparisons; it is embedded computably over `ℚ`
(with `Int.log 10` playing the role of `floor(log10 ·)`).  The analyzer uses
transcendental functions and is embedded over `ℝ`.
-/

namespace CompL

/-! ## Engineering-notation formatter (`eng`, comp_L.c lines 62-131) -/

/-- The SI prefix table `prefix[]` of comp_L.c (the C identifier is a Lean
keyword, hence the changed name). -/
def symList : List String :=
  ["y", "z", "a", "f", "p", "n", "u", "m", "",
   "k", "M", "G", "T", "P", "E", "Z", "Y"]

/-- `PREFIX_START`: smallest power of ten with a defined SI symbol. -/
def prefStart : ℤ := -24

/-- `PREFIX_END = PREFIX_START + (sizeof(prefix)/sizeof(char*) - 1)*3`. -/
def prefEnd : ℤ := prefStart + ((symList.length : ℤ) - 1) * 3

/-- `expof10 = lrint(floor(log10(value)))` for the (positive) magnitude;
`Int.log 10` is exactly `⌊log10 ·⌋` on positive rationals
(see `Real.floor_logb_natCast`). -/
def expof10 (v : ℚ) : ℤ := Int.log 10 v

/-- `value *= pow(10.0, digits - 1 - expof10)`: scale so that `digits`
integer digits remain. -/
def scaled (v : ℚ) (digits : ℤ) : ℚ := v * 10 ^ (digits - 1 - expof10 v)

/-- The integer produced by `fract = modf(value, &display); if (fract >= 0.5)
display += 1.0;` applied to the scaled magnitude (which is positive, so
`modf`'s truncation is the floor). -/
def displayOf (v : ℚ) (digits : ℤ) : ℤ :=
  let v1 := scaled v digits
  if v1 - ⌊v1⌋ ≥ 1/2 then ⌊v1⌋ + 1 else ⌊v1⌋

/-- `value = display * pow(10.0, expof10 - digits + 1)`: the magnitude rounded
to `digits` significant digits. -/
def roundedValue (v : ℚ) (digits : ℤ) : ℚ :=
  (displayOf v digits : ℚ) * 10 ^ (expof10 v - digits + 1)

/-- Decade alignment of the exponent (comp_L.c lines 109-112):
`if (expof10 > 0) expof10 = (expof10/3)*3; else
expof10 = ((-expof10+3)/3)*(-3);`.  All the C integer divisions here have
nonnegative operands, where C truncation agrees with Lean's `/` on `ℤ`. -/
def alignExp (e : ℤ) : ℤ := if e > 0 then e / 3 * 3 else -((-e + 3) / 3 * 3)

/-- The mantissa after `value *= pow(10.0, -expof10)` with the aligned
exponent. -/
def afterAlign (v : ℚ) (digits : ℤ) : ℚ :=
  roundedValue v digits * 10 ^ (-alignExp (expof10 v))

/-- Carry correction and fractional-digit adjustment (comp_L.c lines 115-122),
returning the displayed mantissa, the final exponent, and the adjusted
digit count. -/
def engParts (v : ℚ) (digits : ℤ) : ℚ × ℤ × ℤ :=
  let v3 := afterAlign v digits
  let e3 := alignExp (expof10 v)
  if v3 ≥ 1000 then (v3 / 1000, e3 + 3, digits)
  else if v3 ≥ 100 then (v3, e3, digits - 2)
  else if v3 ≥ 10 then (v3, e3, digits - 1)
  else (v3, e3, digits)

/-- Round-to-nearest with ties to even, the default IEEE rounding used by
`snprintf` when it rounds a value to a fixed number of decimals. -/
def roundHalfEven (x : ℚ) : ℤ :=
  if x - ⌊x⌋ < 1/2 then ⌊x⌋
  else if x - ⌊x⌋ > 1/2 then ⌊x⌋ + 1
  else if ⌊x⌋ % 2 = 0 then ⌊x⌋ else ⌊x⌋ + 1

/-- Left-pad a string with `'0'` to length `n`. -/
def padZeros (s : String) (n : ℕ) : String :=
  String.mk (List.replicate (n - s.length) '0') ++ s

/-- Rendering of a nonnegative value with exactly `p` decimal places, as
`printf("%.*f", p, x)` does. -/
def fixedDecimal (x : ℚ) (p : ℕ) : String :=
  let n := (roundHalfEven (x * 10 ^ p)).toNat
  let ip := n / 10 ^ p
  let fp := n % 10 ^ p
  if p = 0 then toString ip
  else toString ip ++ "." ++ padZeros (toString fp) p

/-- The `snprintf` precision: `digits - 1`, except that a negative C `printf`
precision counts as omitted, i.e. as the default of 6 decimals. -/
def precOf (digits : ℤ) : ℕ := if digits - 1 < 0 then 6 else (digits - 1).toNat

/-- The formatted magnitude: everything of `eng` after the sign split
(comp_L.c lines 100-128), applied to `|value|`.  The `snprintf` buffer
truncation (`rlen`) is not modelled: the caller's 32-byte buffer is treated
as unbounded. -/
def engBody (v : ℚ) (digits : ℤ) (numeric : Bool) : String :=
  let parts := engParts v digits
  let m := parts.1
  let e := parts.2.1
  let d := parts.2.2
  if numeric || decide (e < prefStart) || decide (e > prefEnd) then
    fixedDecimal m (precOf d) ++ "e" ++ toString e
  else
    fixedDecimal m (precOf d) ++ " " ++ (symList.getD ((e - prefStart) / 3).toNat "")

/-- The `eng` function of comp_L.c.  `assert(isnormal(value))` is modelled by
returning `none` for a zero input (a nonzero rational models a normal,
finite, nonzero double); otherwise the sign is split off and the magnitude
is formatted by `engBody`. -/
def eng (value : ℚ) (digits : ℤ) (numeric : Bool) : Option String :=
  if value = 0 then none
  else some ((if value < 0 then "-" else "") ++ engBody |value| digits numeric)

/-! ## Impedance analyzer (comp_L.c `main`, lines 172-207)

The C doubles and the libm transcendentals are modelled over `ℝ`. -/

open Real in
/-- The libm `atan2(y, x)`: the angle of the point `(x, y)`, in
`(-π, π]`. -/
noncomputable def atan2 (y x : ℝ) : ℝ :=
  if 0 < x then arctan (y / x)
  else if x < 0 then
    (if 0 ≤ y then arctan (y / x) + π else arctan (y / x) - π)
  else if 0 < y then π / 2
  else if y < 0 then -(π / 2)
  else 0

/-- `theta = 2*M_PI*freq*delta_t` (line 172). -/
noncomputable def thetaOf (freq dt : ℝ) : ℝ := 2 * Real.pi * freq * dt

/-- `phi = theta - atan2(-V_dut*sin(theta), V_in - V_dut*cos(theta))`
(line 173), before clamping. -/
noncomputable def phiRawOf (freq dt vin vdut : ℝ) : ℝ :=
  thetaOf freq dt -
    atan2 (-vdut * Real.sin (thetaOf freq dt)) (vin - vdut * Real.cos (thetaOf freq dt))

/-- The two sequential clamping `if`s (lines 178-187): a value below `-π/2`
becomes `-π/2 + 1e-15`, then a value above `π/2` becomes `π/2 - 1e-15`. -/
noncomputable def clampPhi (p : ℝ) : ℝ :=
  let p1 := if p < -(Real.pi / 2) then -(Real.pi / 2) + 1e-15 else p
  if p1 > Real.pi / 2 then Real.pi / 2 - 1e-15 else p1

/-- The advisory warning the clamping code prints, together with the reported
out-of-range amount (`phi + M_PI/2` resp. `phi - M_PI/2`); `none` when no
warning is printed. -/
noncomputable def clampWarn (p : ℝ) : Option ℝ :=
  if p < -(Real.pi / 2) then some (p + Real.pi / 2)
  else if p > Real.pi / 2 then some (p - Real.pi / 2)
  else none

/-- The clamped `phi` actually used by the computation. -/
noncomputable def phiOf (freq dt vin vdut : ℝ) : ℝ :=
  clampPhi (phiRawOf freq dt vin vdut)

/-- `Z = V_dut*R/sqrt(V_in*V_in - 2*V_in*V_dut*cos(theta) + V_dut*V_dut)`
(line 189). -/
noncomputable def ZOf (R freq dt vin vdut : ℝ) : ℝ :=
  vdut * R / Real.sqrt (vin * vin - 2 * vin * vdut * Real.cos (thetaOf freq dt) + vdut * vdut)

/-- `Resr = Z*cos(phi)` (line 190). -/
noncomputable def ResrOf (R freq dt vin vdut : ℝ) : ℝ :=
  ZOf R freq dt vin vdut * Real.cos (phiOf freq dt vin vdut)

/-- `X = Z*sin(phi)` (line 191). -/
noncomputable def XOf (R freq dt vin vdut : ℝ) : ℝ :=
  ZOf R freq dt vin vdut * Real.sin (phiOf freq dt vin vdut)

/-- `Q = fabs(X)/Resr` (line 192). -/
noncomputable def QOf (R freq dt vin vdut : ℝ) : ℝ :=
  |XOf R freq dt vin vdut| / ResrOf R freq dt vin vdut

/-- The inductive-or-capacitive output pair: `Ls`/`Lp` are printed only in the
`phi > 0` branch and `Cs`/`Cp` only in the other branch (lines 197-205). -/
structure LCOut where
  ls : Option ℝ
  lp : Option ℝ
  cs : Option ℝ
  cp : Option ℝ

/-- The branch on the sign of the clamped `phi` (lines 197-205):
`Ls = X/(2*M_PI*freq)`, `Lp = Ls*(1 + 1/Q/Q)` when `phi > 0`, else
`Cs = -1/(2*M_PI*freq*X)`, `Cp = Cs/(1 + 1/Q/Q)`. -/
noncomputable def lcOut (R freq dt vin vdut : ℝ) : LCOut :=
  let phi := phiOf freq dt vin vdut
  let X := XOf R freq dt vin vdut
  let Q := QOf R freq dt vin vdut
  if phi > 0 then
    { ls := some (X / (2 * Real.pi * freq)),
      lp := some (X / (2 * Real.pi * freq) * (1 + 1 / Q / Q)),
      cs := none, cp := none }
  else
    { ls := none, lp := none,
      cs := some (-1 / (2 * Real.pi * freq * X)),
      cp := some (-1 / (2 * Real.pi * freq * X) / (1 + 1 / Q / Q)) }

/-! ## Helper lemmas -/

lemma pi_lb : (3.141592 : ℝ) < Real.pi := by
  have := Real.pi_gt_3141592
  norm_num at this ⊢
  linarith

lemma pi_ub : Real.pi < (3.141593 : ℝ) := by
  have := Real.pi_lt_3141593
  norm_num at this ⊢
  linarith

lemma thetaOf_dt_zero (freq : ℝ) : thetaOf freq 0 = 0 := by
  simp [thetaOf]

lemma atan2_zero_of_nonneg {x : ℝ} (hx : 0 ≤ x) : atan2 0 x = 0 := by
  unfold atan2
  rcases lt_or_eq_of_le hx with h | h
  · rw [if_pos h, zero_div, Real.arctan_zero]
  · rw [if_neg (by rw [← h]; exact lt_irrefl 0), if_neg (by rw [← h]; exact lt_irrefl 0),
      if_neg (lt_irrefl 0), if_neg (lt_irrefl 0)]

lemma phiRawOf_dt_zero (freq vin vdut : ℝ) (h : 0 ≤ vin - vdut) :
    phiRawOf freq 0 vin vdut = 0 := by
  unfold phiRawOf
  rw [thetaOf_dt_zero, Real.sin_zero, Real.cos_zero]
  rw [show -vdut * 0 = (0 : ℝ) by ring, show vin - vdut * 1 = vin - vdut by ring]
  rw [atan2_zero_of_nonneg h, sub_zero]

lemma clampPhi_of_mem {p : ℝ} (h1 : -(Real.pi / 2) ≤ p) (h2 : p ≤ Real.pi / 2) :
    clampPhi p = p := by
  unfold clampPhi
  rw [if_neg (not_lt.mpr h1)]
  simp only
  rw [if_neg (not_lt.mpr h2)]

lemma clampWarn_of_mem {p : ℝ} (h1 : -(Real.pi / 2) ≤ p) (h2 : p ≤ Real.pi / 2) :
    clampWarn p = none := by
  unfold clampWarn
  rw [if_neg (not_lt.mpr h1), if_neg (not_lt.mpr h2)]

lemma phiOf_dt_zero (freq vin vdut : ℝ) (h : 0 ≤ vin - vdut) :
    phiOf freq 0 vin vdut = 0 := by
  have hpi := pi_lb
  unfold phiOf
  rw [phiRawOf_dt_zero freq vin vdut h]
  exact clampPhi_of_mem (by linarith) (by linarith)

/-! ## Claims about the analyzer's clamping and branching -/

/-- C2: whenever the raw phase falls outside `[-π/2, π/2]` the analyzer keeps
going: it emits the advisory warning with the out-of-range amount and replaces
`phi` by the nearer interval boundary nudged inward by `1e-15`, so the `phi`
that is used afterwards lies strictly inside `(-π/2, π/2)`; a raw phase inside
the interval is used unchanged, with no warning. -/
theorem C2_phi_clamping (p : ℝ) :
    (p < -(Real.pi / 2) ∨ Real.pi / 2 < p →
      clampWarn p =
        some (if p < -(Real.pi / 2) then p + Real.pi / 2 else p - Real.pi / 2) ∧
      clampPhi p =
        (if p < -(Real.pi / 2) then -(Real.pi / 2) + 1e-15 else Real.pi / 2 - 1e-15) ∧
      -(Real.pi / 2) < clampPhi p ∧ clampPhi p < Real.pi / 2) ∧
    (-(Real.pi / 2) ≤ p → p ≤ Real.pi / 2 → clampPhi p = p ∧ clampWarn p = none) := by
  have hpi := pi_lb
  constructor
  · rintro (h | h)
    · have h2 : ¬ Real.pi / 2 < p := by linarith
      refine ⟨?_, ?_, ?_, ?_⟩
      · unfold clampWarn
        rw [if_pos h, if_pos h]
      · unfold clampPhi
        rw [if_pos h]
        simp only
        rw [if_neg (by push_neg; linarith), if_pos h]
      · unfold clampPhi
        rw [if_pos h]
        simp only
        rw [if_neg (by push_neg; linarith)]
        norm_num
      · unfold clampPhi
        rw [if_pos h]
        simp only
        rw [if_neg (by push_neg; linarith)]
        norm_num
        linarith
    · have h1 : ¬ p < -(Real.pi / 2) := by push_neg; linarith
      refine ⟨?_, ?_, ?_, ?_⟩
      · unfold clampWarn
        rw [if_neg h1, if_pos h, if_neg h1]
      · unfold clampPhi
        rw [if_neg h1]
        simp only
        rw [if_pos h, if_neg h1]
      · unfold clampPhi
        rw [if_neg h1]
        simp only
        rw [if_pos h]
        norm_num
        linarith
      · unfold clampPhi
        rw [if_neg h1]
        simp only
        rw [if_pos h]
        norm_num
  · intro h1 h2
    exact ⟨clampPhi_of_mem h1 h2, clampWarn_of_mem h1 h2⟩

/-- Witness for C2 at the concrete raw phase `2 > π/2`. -/
theorem C2_phi_clamping_witness :
    (2 : ℝ) < -(Real.pi / 2) ∨ Real.pi / 2 < 2 ∧
      clampWarn 2 = some (2 - Real.pi / 2) ∧
      clampPhi 2 = Real.pi / 2 - 1e-15 ∧
      -(Real.pi / 2) < clampPhi 2 ∧ clampPhi 2 < Real.pi / 2 := by
  have hpi := pi_ub
  have h : Real.pi / 2 < (2 : ℝ) := by linarith
  have h1 : ¬ (2 : ℝ) < -(Real.pi / 2) := by push_neg; linarith [pi_lb]
  obtain ⟨hw, hc, hlo, hhi⟩ := (C2_phi_clamping 2).1 (Or.inr h)
  rw [if_neg h1] at hw hc
  exact Or.inr ⟨h, hw, hc, hlo, hhi⟩

/-! ## Numeric bounds for the worked example (claim C1)

Inputs: `R_ref = 327.8`, `freq = 1000`, `delta_t = 217e-6`, `v_in = 8.81`,
`v_dut = 0.17827`.  Here `theta = 0.434·π`; `sin` and `cos` of `theta` are
bounded through double/triple-angle identities from Taylor bounds at the
small angle `0.011·π`. -/

lemma aAng_bounds : (0.03455751918 : ℝ) < 0.011 * Real.pi ∧
    (0.011 : ℝ) * Real.pi < 0.03455751920 := by
  have h1 := Real.pi_gt_d20
  have h2 := Real.pi_lt_d20
  constructor <;> nlinarith

lemma sinA_bounds : (0.034550559 : ℝ) < Real.sin (0.011 * Real.pi) ∧
    Real.sin (0.011 * Real.pi) < 0.034550723 := by
  obtain ⟨h1, h2⟩ := aAng_bounds
  set a : ℝ := 0.011 * Real.pi with ha
  have hpos : (0 : ℝ) < a := by linarith
  have habs : |a| ≤ 1 := by rw [abs_of_pos hpos]; linarith
  have hs := Real.sin_bound habs
  rw [abs_of_pos hpos, abs_le] at hs
  have ha2l : (0.03455751918 : ℝ) ^ 2 < a ^ 2 := by nlinarith
  have ha2u : a ^ 2 < (0.03455751920 : ℝ) ^ 2 := by nlinarith
  have ha3l : (0.03455751918 : ℝ) ^ 3 < a ^ 3 := by nlinarith
  have ha3u : a ^ 3 < (0.03455751920 : ℝ) ^ 3 := by nlinarith
  have ha4u : a ^ 4 < (0.03455751920 : ℝ) ^ 4 := by nlinarith
  constructor <;> nlinarith

lemma cosA_bounds : (0.999402807 : ℝ) < Real.cos (0.011 * Real.pi) ∧
    Real.cos (0.011 * Real.pi) < 0.999402971 := by
  obtain ⟨h1, h2⟩ := aAng_bounds
  set a : ℝ := 0.011 * Real.pi with ha
  have hpos : (0 : ℝ) < a := by linarith
  have habs : |a| ≤ 1 := by rw [abs_of_pos hpos]; linarith
  have hs := Real.cos_bound habs
  rw [abs_of_pos hpos, abs_le] at hs
  have ha2l : (0.03455751918 : ℝ) ^ 2 < a ^ 2 := by nlinarith
  have ha2u : a ^ 2 < (0.03455751920 : ℝ) ^ 2 := by nlinarith
  have ha4u : a ^ 4 < (0.03455751920 : ℝ) ^ 4 := by nlinarith
  constructor <;> nlinarith

lemma sin2A_bounds : (0.069059834 : ℝ) < Real.sin (0.022 * Real.pi) ∧
    Real.sin (0.022 * Real.pi) < 0.069060208 := by
  have h : (0.022 : ℝ) * Real.pi = 2 * (0.011 * Real.pi) := by ring
  rw [h, Real.sin_two_mul]
  obtain ⟨hs1, hs2⟩ := sinA_bounds
  obtain ⟨hc1, hc2⟩ := cosA_bounds
  constructor <;> nlinarith

lemma sin3A_bounds : (0.103486674 : ℝ) < Real.sin (0.033 * Real.pi) ∧
    Real.sin (0.033 * Real.pi) < 0.103487214 := by
  have h : (0.033 : ℝ) * Real.pi = 3 * (0.011 * Real.pi) := by ring
  rw [h, Real.sin_three_mul]
  obtain ⟨hs1, hs2⟩ := sinA_bounds
  have h3l : (0.034550559 : ℝ) ^ 3 < Real.sin (0.011 * Real.pi) ^ 3 :=
    pow_lt_pow_left hs1 (by norm_num) (by norm_num)
  have h3u : Real.sin (0.011 * Real.pi) ^ 3 < (0.034550723 : ℝ) ^ 3 :=
    pow_lt_pow_left hs2 (by nlinarith) (by norm_num)
  constructor <;> nlinarith

lemma cosTheta_bounds : (0.205861989 : ℝ) < Real.cos (0.434 * Real.pi) ∧
    Real.cos (0.434 * Real.pi) < 0.205863201 := by
  have h : (0.434 : ℝ) * Real.pi = Real.pi / 2 - 0.066 * Real.pi := by ring
  rw [h, Real.cos_pi_div_two_sub]
  have h3 : (0.066 : ℝ) * Real.pi = 3 * (0.022 * Real.pi) := by ring
  rw [h3, Real.sin_three_mul]
  obtain ⟨hs1, hs2⟩ := sin2A_bounds
  have h3l : (0.069059834 : ℝ) ^ 3 < Real.sin (0.022 * Real.pi) ^ 3 :=
    pow_lt_pow_left hs1 (by norm_num) (by norm_num)
  have h3u : Real.sin (0.022 * Real.pi) ^ 3 < (0.069060208 : ℝ) ^ 3 :=
    pow_lt_pow_left hs2 (by nlinarith) (by norm_num)
  constructor <;> nlinarith

lemma sinTheta_bounds : (0.978580781 : ℝ) < Real.sin (0.434 * Real.pi) ∧
    Real.sin (0.434 * Real.pi) < 0.978581028 := by
  have h : (0.434 : ℝ) * Real.pi = Real.pi / 2 - 0.066 * Real.pi := by ring
  rw [h, Real.sin_pi_div_two_sub]
  have h2 : (0.066 : ℝ) * Real.pi = 2 * (0.033 * Real.pi) := by ring
  have hcos2 : Real.cos (2 * (0.033 * Real.pi)) =
      1 - 2 * Real.sin (0.033 * Real.pi) ^ 2 := by
    have hpy := Real.sin_sq_add_cos_sq (0.033 * Real.pi)
    have := Real.cos_two_mul (0.033 * Real.pi)
    linarith
  rw [h2, hcos2]
  obtain ⟨hs1, hs2⟩ := sin3A_bounds
  constructor <;> nlinarith

lemma thetaC1_eq : thetaOf 1000 217e-6 = 0.434 * Real.pi := by
  unfold thetaOf
  ring

lemma thetaC1_bounds : (1.36345121165 : ℝ) < thetaOf 1000 217e-6 ∧
    thetaOf 1000 217e-6 < 1.36345121166 := by
  rw [thetaC1_eq]
  have h1 := Real.pi_gt_d20
  have h2 := Real.pi_lt_d20
  constructor <;> nlinarith

/-- The quotient fed to `arctan` in the worked example. -/
noncomputable def tC1 : ℝ :=
  0.17827 * Real.sin (0.434 * Real.pi) / (8.81 - 0.17827 * Real.cos (0.434 * Real.pi))

lemma denomC1_pos : (0 : ℝ) < 8.81 - 0.17827 * Real.cos (0.434 * Real.pi) := by
  obtain ⟨h1, h2⟩ := cosTheta_bounds
  nlinarith

lemma phiRawC1_eq :
    phiRawOf 1000 217e-6 8.81 0.17827 = 0.434 * Real.pi + Real.arctan tC1 := by
  unfold phiRawOf atan2
  rw [thetaC1_eq]
  rw [if_pos denomC1_pos]
  rw [neg_mul, neg_div, Real.arctan_neg]
  unfold tC1
  ring

lemma tC1_bounds : (0.0198843734 : ℝ) < tC1 ∧ tC1 < 0.0198843796 := by
  obtain ⟨hs1, hs2⟩ := sinTheta_bounds
  obtain ⟨hc1, hc2⟩ := cosTheta_bounds
  have hD := denomC1_pos
  unfold tC1
  constructor
  · rw [lt_div_iff hD]
    nlinarith
  · rw [div_lt_iff hD]
    nlinarith

lemma arctan_tC1_lb : (0.0198817294 : ℝ) < Real.arctan tC1 := by
  have hl : Real.arctan (Real.tan 0.0198817294) = (0.0198817294 : ℝ) := by
    apply Real.arctan_tan
    · have := Real.pi_gt_d6
      norm_num
      linarith
    · have := Real.pi_gt_d6
      norm_num
      linarith
  have htan : Real.tan 0.0198817294 < tC1 := by
    rw [Real.tan_eq_sin_div_cos]
    have hx : |(0.0198817294 : ℝ)| ≤ 1 := by rw [abs_of_pos] <;> norm_num
    have hsb := Real.sin_bound hx
    have hcb := Real.cos_bound hx
    rw [abs_of_pos (by norm_num : (0:ℝ) < 0.0198817294), abs_le] at hsb hcb
    have hcpos : (0 : ℝ) < Real.cos 0.0198817294 := by nlinarith
    rw [div_lt_iff hcpos]
    obtain ⟨ht1, _⟩ := tC1_bounds
    nlinarith
  calc (0.0198817294 : ℝ) = Real.arctan (Real.tan 0.0198817294) := hl.symm
    _ < Real.arctan tC1 := Real.arctan_strictMono htan

lemma arctan_tC1_ub : Real.arctan tC1 < 0.0198817826 := by
  have hu : Real.arctan (Real.tan 0.0198817826) = (0.0198817826 : ℝ) := by
    apply Real.arctan_tan
    · have := Real.pi_gt_d6
      norm_num
      linarith
    · have := Real.pi_gt_d6
      norm_num
      linarith
  have htan : tC1 < Real.tan 0.0198817826 := by
    rw [Real.tan_eq_sin_div_cos]
    have hx : |(0.0198817826 : ℝ)| ≤ 1 := by rw [abs_of_pos] <;> norm_num
    have hsb := Real.sin_bound hx
    have hcb := Real.cos_bound hx
    rw [abs_of_pos (by norm_num : (0:ℝ) < 0.0198817826), abs_le] at hsb hcb
    have hcpos : (0 : ℝ) < Real.cos 0.0198817826 := by nlinarith
    rw [lt_div_iff hcpos]
    obtain ⟨_, ht2⟩ := tC1_bounds
    nlinarith
  calc Real.arctan tC1 < Real.arctan (Real.tan 0.0198817826) :=
        Real.arctan_strictMono htan
    _ = 0.0198817826 := hu

lemma phiRawC1_bounds : (1.3833329410 : ℝ) < phiRawOf 1000 217e-6 8.81 0.17827 ∧
    phiRawOf 1000 217e-6 8.81 0.17827 < 1.3833329943 := by
  rw [phiRawC1_eq]
  have hth1 := Real.pi_gt_d20
  have hth2 := Real.pi_lt_d20
  have h1 := arctan_tC1_lb
  have h2 := arctan_tC1_ub
  constructor <;> nlinarith

lemma phiC1_eq : phiOf 1000 217e-6 8.81 0.17827 = phiRawOf 1000 217e-6 8.81 0.17827 := by
  obtain ⟨h1, h2⟩ := phiRawC1_bounds
  have hpi := Real.pi_gt_d6
  exact clampPhi_of_mem (by nlinarith) (by nlinarith)

lemma phiC1_bounds : (1.3833329410 : ℝ) < phiOf 1000 217e-6 8.81 0.17827 ∧
    phiOf 1000 217e-6 8.81 0.17827 < 1.3833329943 := by
  rw [phiC1_eq]
  exact phiRawC1_bounds

/-- The radicand of `Z`'s denominator in the worked example. -/
noncomputable def innerC1 : ℝ :=
  8.81 * 8.81 - 2 * 8.81 * 0.17827 * Real.cos (thetaOf 1000 217e-6) + 0.17827 * 0.17827

lemma innerC1_bounds : (77.00123951 : ℝ) < innerC1 ∧ innerC1 < 77.00124371 := by
  unfold innerC1
  rw [thetaC1_eq]
  obtain ⟨h1, h2⟩ := cosTheta_bounds
  constructor <;> nlinarith

lemma sqrt_innerC1_bounds : (8.77503499 : ℝ) < Real.sqrt innerC1 ∧
    Real.sqrt innerC1 < 8.77503528 := by
  obtain ⟨h1, h2⟩ := innerC1_bounds
  constructor
  · rw [Real.lt_sqrt (by norm_num)]
    nlinarith
  · rw [Real.sqrt_lt' (by norm_num)]
    nlinarith

lemma ZC1_eq : ZOf 327.8 1000 217e-6 8.81 0.17827 = 0.17827 * 327.8 / Real.sqrt innerC1 := by
  unfold ZOf innerC1
  norm_num

lemma ZC1_bounds : (6.65944968 : ℝ) < ZOf 327.8 1000 217e-6 8.81 0.17827 ∧
    ZOf 327.8 1000 217e-6 8.81 0.17827 < 6.65944993 := by
  rw [ZC1_eq]
  obtain ⟨h1, h2⟩ := sqrt_innerC1_bounds
  have hpos : (0 : ℝ) < Real.sqrt innerC1 := by linarith
  constructor
  · rw [lt_div_iff hpos]
    nlinarith
  · rw [div_lt_iff hpos]
    nlinarith

lemma sqrt_one_add_tC1_sq_bounds : (1.000197672 : ℝ) < Real.sqrt (1 + tC1 ^ 2) ∧
    Real.sqrt (1 + tC1 ^ 2) < 1.000197677 := by
  obtain ⟨h1, h2⟩ := tC1_bounds
  have hw1 : (1.000197672 : ℝ) ^ 2 < 1 + tC1 ^ 2 := by nlinarith
  have hw2 : 1 + tC1 ^ 2 < (1.000197677 : ℝ) ^ 2 := by nlinarith
  constructor
  · rw [Real.lt_sqrt (by norm_num)]
    exact hw1
  · rw [Real.sqrt_lt' (by norm_num)]
    exact hw2

lemma cos_phiC1_eq : Real.cos (phiOf 1000 217e-6 8.81 0.17827) =
    (Real.cos (0.434 * Real.pi) - Real.sin (0.434 * Real.pi) * tC1) /
      Real.sqrt (1 + tC1 ^ 2) := by
  rw [phiC1_eq, phiRawC1_eq, Real.cos_add, Real.cos_arctan, Real.sin_arctan]
  field_simp

lemma sin_phiC1_eq : Real.sin (phiOf 1000 217e-6 8.81 0.17827) =
    (Real.sin (0.434 * Real.pi) + Real.cos (0.434 * Real.pi) * tC1) /
      Real.sqrt (1 + tC1 ^ 2) := by
  rw [phiC1_eq, phiRawC1_eq, Real.sin_add, Real.cos_arctan, Real.sin_arctan]
  field_simp

lemma cos_phiC1_bounds : (0.18636660 : ℝ) < Real.cos (phiOf 1000 217e-6 8.81 0.17827) ∧
    Real.cos (phiOf 1000 217e-6 8.81 0.17827) < 0.18636796 := by
  rw [cos_phiC1_eq]
  obtain ⟨hs1, hs2⟩ := sinTheta_bounds
  obtain ⟨hc1, hc2⟩ := cosTheta_bounds
  obtain ⟨ht1, ht2⟩ := tC1_bounds
  obtain ⟨hu1, hu2⟩ := sqrt_one_add_tC1_sq_bounds
  have hupos : (0 : ℝ) < Real.sqrt (1 + tC1 ^ 2) := by linarith
  constructor
  · rw [lt_div_iff hupos]
    nlinarith
  · rw [div_lt_iff hupos]
    nlinarith

lemma sin_phiC1_bounds : (0.98247998 : ℝ) < Real.sin (phiOf 1000 217e-6 8.81 0.17827) ∧
    Real.sin (phiOf 1000 217e-6 8.81 0.17827) < 0.98248030 := by
  rw [sin_phiC1_eq]
  obtain ⟨hs1, hs2⟩ := sinTheta_bounds
  obtain ⟨hc1, hc2⟩ := cosTheta_bounds
  obtain ⟨ht1, ht2⟩ := tC1_bounds
  obtain ⟨hu1, hu2⟩ := sqrt_one_add_tC1_sq_bounds
  have hupos : (0 : ℝ) < Real.sqrt (1 + tC1 ^ 2) := by linarith
  constructor
  · rw [lt_div_iff hupos]
    nlinarith
  · rw [div_lt_iff hupos]
    nlinarith

lemma ResrC1_bounds : (1.24109853 : ℝ) < ResrOf 327.8 1000 217e-6 8.81 0.17827 ∧
    ResrOf 327.8 1000 217e-6 8.81 0.17827 < 1.24110856 := by
  unfold ResrOf
  obtain ⟨hz1, hz2⟩ := ZC1_bounds
  obtain ⟨hp1, hp2⟩ := cos_phiC1_bounds
  constructor <;> nlinarith

lemma XC1_bounds : (6.54277586 : ℝ) < XOf 327.8 1000 217e-6 8.81 0.17827 ∧
    XOf 327.8 1000 217e-6 8.81 0.17827 < 6.54277849 := by
  unfold XOf
  obtain ⟨hz1, hz2⟩ := ZC1_bounds
  obtain ⟨hp1, hp2⟩ := sin_phiC1_bounds
  constructor <;> nlinarith

lemma QC1_bounds : (5.27171 : ℝ) < QOf 327.8 1000 217e-6 8.81 0.17827 ∧
    QOf 327.8 1000 217e-6 8.81 0.17827 < 5.27177 := by
  unfold QOf
  obtain ⟨hx1, hx2⟩ := XC1_bounds
  obtain ⟨hr1, hr2⟩ := ResrC1_bounds
  rw [abs_of_pos (by linarith)]
  have hrpos : (0 : ℝ) < ResrOf 327.8 1000 217e-6 8.81 0.17827 := by linarith
  constructor
  · rw [lt_div_iff hrpos]
    nlinarith
  · rw [div_lt_iff hrpos]
    nlinarith

lemma phiC1_pos : (0 : ℝ) < phiOf 1000 217e-6 8.81 0.17827 := by
  obtain ⟨h1, _⟩ := phiC1_bounds
  linarith

lemma lcOutC1_ls : (lcOut 327.8 1000 217e-6 8.81 0.17827).ls =
    some (XOf 327.8 1000 217e-6 8.81 0.17827 / (2 * Real.pi * 1000)) := by
  unfold lcOut
  simp only
  rw [if_pos phiC1_pos]

lemma LsC1_bounds : (0.00104131 : ℝ) < XOf 327.8 1000 217e-6 8.81 0.17827 / (2 * Real.pi * 1000) ∧
    XOf 327.8 1000 217e-6 8.81 0.17827 / (2 * Real.pi * 1000) < 0.00104132 := by
  obtain ⟨hx1, hx2⟩ := XC1_bounds
  have hp1 := Real.pi_gt_d20
  have hp2 := Real.pi_lt_d20
  have hdpos : (0 : ℝ) < 2 * Real.pi * 1000 := by nlinarith
  constructor
  · rw [lt_div_iff hdpos]
    nlinarith
  · rw [div_lt_iff hdpos]
    nlinarith

/-- C1: on the worked example `R_ref = 327.8`, `freq = 1000`,
`delta_t = 217e-6`, `v_in = 8.81`, `v_dut = 0.17827`, the analyzer produces
`theta ≈ 1.363451`, `phi ≈ 1.383333` with `phi > 0` (so the inductive branch
is taken and `Ls` is emitted), `Z ≈ 6.659`, `Ls ≈ 1.041e-3`, `Resr ≈ 1.241`
and `Q ≈ 5.2717`. -/
theorem C1_worked_example :
    |thetaOf 1000 217e-6 - 1.363451| < 1e-6 ∧
    |phiOf 1000 217e-6 8.81 0.17827 - 1.383333| < 5e-6 ∧
    0 < phiOf 1000 217e-6 8.81 0.17827 ∧
    (∃ L, (lcOut 327.8 1000 217e-6 8.81 0.17827).ls = some L ∧ |L - 1.041e-3| < 5e-7) ∧
    |ZOf 327.8 1000 217e-6 8.81 0.17827 - 6.659| < 1e-3 ∧
    |ResrOf 327.8 1000 217e-6 8.81 0.17827 - 1.241| < 5e-4 ∧
    |QOf 327.8 1000 217e-6 8.81 0.17827 - 5.2717| < 1e-4 := by
  refine ⟨?_, ?_, phiC1_pos, ?_, ?_, ?_, ?_⟩
  · obtain ⟨h1, h2⟩ := thetaC1_bounds
    rw [abs_lt]
    constructor <;> nlinarith
  · obtain ⟨h1, h2⟩ := phiC1_bounds
    rw [abs_lt]
    constructor <;> nlinarith
  · refine ⟨_, lcOutC1_ls, ?_⟩
    obtain ⟨h1, h2⟩ := LsC1_bounds
    rw [abs_lt]
    constructor <;> nlinarith
  · obtain ⟨h1, h2⟩ := ZC1_bounds
    rw [abs_lt]
    constructor <;> nlinarith
  · obtain ⟨h1, h2⟩ := ResrC1_bounds
    rw [abs_lt]
    constructor <;> nlinarith
  · obtain ⟨h1, h2⟩ := QC1_bounds
    rw [abs_lt]
    constructor <;> nlinarith

/-! ## Claims C6, C7, C10 -/

lemma one_div_div_self (Q : ℝ) : 1 / Q / Q = 1 / Q ^ 2 := by
  rw [div_div, ← sq]

/-- C6: for every input exactly one of the two output variants is populated:
`Ls`/`Lp` with `Ls = X/(2π·freq)` and `Lp = Ls·(1 + 1/Q²)` when the clamped
`phi` is positive, and `Cs`/`Cp` with `Cs = -1/(2π·freq·X)` and
`Cp = Cs/(1 + 1/Q²)` when `phi ≤ 0`; never both pairs at once. -/
theorem C6_variants_mutually_exclusive (R freq dt vin vdut : ℝ) :
    (0 < phiOf freq dt vin vdut →
      (lcOut R freq dt vin vdut).ls =
        some (XOf R freq dt vin vdut / (2 * Real.pi * freq)) ∧
      (lcOut R freq dt vin vdut).lp =
        some (XOf R freq dt vin vdut / (2 * Real.pi * freq) *
          (1 + 1 / QOf R freq dt vin vdut ^ 2)) ∧
      (lcOut R freq dt vin vdut).cs = none ∧
      (lcOut R freq dt vin vdut).cp = none) ∧
    (phiOf freq dt vin vdut ≤ 0 →
      (lcOut R freq dt vin vdut).cs =
        some (-1 / (2 * Real.pi * freq * XOf R freq dt vin vdut)) ∧
      (lcOut R freq dt vin vdut).cp =
        some (-1 / (2 * Real.pi * freq * XOf R freq dt vin vdut) /
          (1 + 1 / QOf R freq dt vin vdut ^ 2)) ∧
      (lcOut R freq dt vin vdut).ls = none ∧
      (lcOut R freq dt vin vdut).lp = none) ∧
    ¬((lcOut R freq dt vin vdut).ls.isSome ∧ (lcOut R freq dt vin vdut).cs.isSome) := by
  unfold lcOut
  simp only
  by_cases h : phiOf freq dt vin vdut > 0
  · rw [if_pos h]
    refine ⟨fun _ => ⟨rfl, ?_, rfl, rfl⟩, fun hle => absurd h (not_lt.mpr hle), ?_⟩
    · rw [one_div_div_self]
    · simp
  · rw [if_neg h]
    refine ⟨fun hpos => absurd hpos h, fun _ => ⟨rfl, ?_, rfl, rfl⟩, ?_⟩
    · rw [one_div_div_self]
    · simp

/-- Witness for C6 at a concrete capacitive input (`delta_t = 0`,
`v_in = 2`, `v_dut = 1`, whose clamped `phi` is `0`). -/
theorem C6_variants_mutually_exclusive_witness :
    (lcOut 100 1000 0 2 1).cs =
      some (-1 / (2 * Real.pi * 1000 * XOf 100 1000 0 2 1)) ∧
    (lcOut 100 1000 0 2 1).ls = none ∧ (lcOut 100 1000 0 2 1).lp = none := by
  have h0 : phiOf 1000 0 2 1 = 0 := phiOf_dt_zero 1000 2 1 (by norm_num)
  have h := (C6_variants_mutually_exclusive 100 1000 0 2 1).2.1 (le_of_eq h0)
  exact ⟨h.1, h.2.2.1, h.2.2.2⟩

/-- C7: with `v_dut = v_in` and `theta = 0` the radicand of `Z`'s denominator
vanishes, the model's `Z` collapses to `0` (IEEE arithmetic produces the
non-finite `+inf` from the division by zero), and formatting such a
non-normal value trips the formatter's `assert(isnormal(value))` error path,
modelled by `eng`'s `none`. -/
theorem C7_equal_voltages_zero_Z (R freq dt vin : ℝ) (h : thetaOf freq dt = 0) :
    ZOf R freq dt vin vin = 0 ∧ eng 0 4 false = none := by
  constructor
  · unfold ZOf
    rw [h, Real.cos_zero]
    rw [show vin * vin - 2 * vin * vin * 1 + vin * vin = 0 by ring]
    rw [Real.sqrt_zero, div_zero]
  · rfl

/-- Witness for C7 at `freq = 1000`, `delta_t = 0`, `v_in = v_dut = 2`. -/
theorem C7_equal_voltages_zero_Z_witness :
    thetaOf 1000 0 = 0 ∧ ZOf 100 1000 0 2 2 = 0 ∧ eng 0 4 false = none :=
  ⟨thetaOf_dt_zero 1000, C7_equal_voltages_zero_Z 100 1000 0 2 (thetaOf_dt_zero 1000)⟩

lemma clampPhi_eq_zero {p : ℝ} (h : clampPhi p = 0) : p = 0 := by
  have hpi := pi_lb
  unfold clampPhi at h
  by_cases h1 : p < -(Real.pi / 2)
  · rw [if_pos h1] at h
    simp only at h
    rw [if_neg (by push_neg; nlinarith)] at h
    nlinarith
  · rw [if_neg h1] at h
    simp only at h
    by_cases h2 : p > Real.pi / 2
    · rw [if_pos h2] at h
      nlinarith
    · rw [if_neg h2] at h
      exact h

lemma lcOut_nonpos (R freq dt vin vdut : ℝ) (h : phiOf freq dt vin vdut ≤ 0) :
    (lcOut R freq dt vin vdut).ls = none ∧ (lcOut R freq dt vin vdut).lp = none ∧
    (lcOut R freq dt vin vdut).cs =
      some (-1 / (2 * Real.pi * freq * XOf R freq dt vin vdut)) := by
  unfold lcOut
  simp only
  rw [if_neg (not_lt.mpr h)]
  exact ⟨rfl, rfl, rfl⟩

/-- C10: when the clamped `phi` is exactly `0` (purely resistive reading,
which the clamping epsilon does not protect against: no warning was
emitted), the reactance `X = Z·sin(phi)` is exactly `0`, the capacitive
branch is taken, and `Cs = -1/(2π·freq·X)` divides by the zero denominator
`2π·freq·X = 0`.  IEEE arithmetic yields a non-finite `Cs`; the real-number
model collapses the quotient to `0`; either value violates the formatter's
normal-finite-nonzero precondition, registered here as `eng 0 4 false = none`. -/
theorem C10_zero_phi_divides_by_zero (R freq dt vin vdut : ℝ)
    (hphi : phiOf freq dt vin vdut = 0) :
    XOf R freq dt vin vdut = 0 ∧
    2 * Real.pi * freq * XOf R freq dt vin vdut = 0 ∧
    clampWarn (phiRawOf freq dt vin vdut) = none ∧
    (lcOut R freq dt vin vdut).ls = none ∧
    (lcOut R freq dt vin vdut).lp = none ∧
    (lcOut R freq dt vin vdut).cs =
      some (-1 / (2 * Real.pi * freq * XOf R freq dt vin vdut)) ∧
    (-1 : ℝ) / (2 * Real.pi * freq * XOf R freq dt vin vdut) = 0 ∧
    eng 0 4 false = none := by
  have hX : XOf R freq dt vin vdut = 0 := by
    unfold XOf
    rw [hphi, Real.sin_zero, mul_zero]
  have hraw : phiRawOf freq dt vin vdut = 0 := clampPhi_eq_zero hphi
  have hden : 2 * Real.pi * freq * XOf R freq dt vin vdut = 0 := by
    rw [hX, mul_zero]
  have hbr := lcOut_nonpos R freq dt vin vdut (le_of_eq hphi)
  refine ⟨hX, hden, ?_, hbr.1, hbr.2.1, hbr.2.2, ?_, rfl⟩
  · rw [hraw]
    have hpi := pi_lb
    exact clampWarn_of_mem (by nlinarith) (by nlinarith)
  · rw [hden, div_zero]

/-- Witness for C10 at `freq = 1000`, `delta_t = 0`, `v_in = 2`,
`v_dut = 1`. -/
theorem C10_zero_phi_divides_by_zero_witness :
    phiOf 1000 0 2 1 = 0 ∧
    XOf 100 1000 0 2 1 = 0 ∧
    (lcOut 100 1000 0 2 1).ls = none ∧
    (-1 : ℝ) / (2 * Real.pi * 1000 * XOf 100 1000 0 2 1) = 0 ∧
    eng 0 4 false = none := by
  have h0 : phiOf 1000 0 2 1 = 0 := phiOf_dt_zero 1000 2 1 (by norm_num)
  have h := C10_zero_phi_divides_by_zero 100 1000 0 2 1 h0
  exact ⟨h0, h.1, h.2.2.2.1, h.2.2.2.2.2.2.1, h.2.2.2.2.2.2.2⟩

/-! ## Formatter lemmas and claims -/

lemma int_log_eq_of_zpow {K : Type*} [LinearOrderedField K] [FloorRing K]
    {q : K} {k : ℤ} (hq : 0 < q) (h1 : (10 : K) ^ k ≤ q) (h2 : q < (10 : K) ^ (k + 1)) :
    Int.log 10 q = k := by
  have hb : 1 < (10 : ℕ) := by norm_num
  have hA := Int.zpow_log_le_self (b := 10) hb hq
  have hB := Int.lt_zpow_succ_log_self (b := 10) hb q
  have hcast : ((10 : ℕ) : K) = (10 : K) := by norm_num
  rw [hcast] at hA hB
  by_contra hne
  rcases lt_or_gt_of_ne hne with hlt | hgt
  · have hle : (10 : K) ^ (Int.log 10 q + 1) ≤ (10 : K) ^ k :=
      zpow_le_zpow_right₀ (by norm_num) (by omega)
    linarith
  · have hle : (10 : K) ^ (k + 1) ≤ (10 : K) ^ (Int.log 10 q) :=
      zpow_le_zpow_right₀ (by norm_num) (by omega)
    linarith

lemma expof10_spec (v : ℚ) (hv : 0 < v) :
    (10 : ℚ) ^ expof10 v ≤ v ∧ v < (10 : ℚ) ^ (expof10 v + 1) := by
  have hb : 1 < (10 : ℕ) := by norm_num
  have hA := Int.zpow_log_le_self (b := 10) hb hv
  have hB := Int.lt_zpow_succ_log_self (b := 10) hb v
  have hcast : ((10 : ℕ) : ℚ) = (10 : ℚ) := by norm_num
  rw [hcast] at hA hB
  exact ⟨hA, hB⟩

lemma floor_logb_eq_expof10 (v : ℚ) (hv : 0 < v) :
    ⌊Real.logb 10 (v : ℝ)⌋ = expof10 v := by
  have hr : (0 : ℝ) ≤ (v : ℝ) := by positivity
  have h := Real.floor_logb_natCast (b := 10) (r := (v : ℝ)) hr
  have hcast : ((10 : ℕ) : ℝ) = (10 : ℝ) := by norm_num
  rw [hcast] at h
  rw [h]
  obtain ⟨h1, h2⟩ := expof10_spec v hv
  apply int_log_eq_of_zpow (by exact_mod_cast hv)
  · have hc := (Rat.cast_le (K := ℝ)).mpr h1
    push_cast at hc
    exact hc
  · have hc := (Rat.cast_lt (K := ℝ)).mpr h2
    push_cast at hc
    exact hc

lemma scaled_bounds (v : ℚ) (hv : 0 < v) (d : ℤ) :
    (10 : ℚ) ^ (d - 1) ≤ scaled v d ∧ scaled v d < (10 : ℚ) ^ d := by
  obtain ⟨h1, h2⟩ := expof10_spec v hv
  unfold scaled
  have hz : (0 : ℚ) < 10 ^ (d - 1 - expof10 v) := zpow_pos (by norm_num) _
  constructor
  · have key : (10 : ℚ) ^ (d - 1) = 10 ^ expof10 v * 10 ^ (d - 1 - expof10 v) := by
      rw [← zpow_add₀ (by norm_num : (10 : ℚ) ≠ 0)]
      congr 1
      ring
    rw [key]
    exact mul_le_mul_of_nonneg_right h1 hz.le
  · have key : (10 : ℚ) ^ d = 10 ^ (expof10 v + 1) * 10 ^ (d - 1 - expof10 v) := by
      rw [← zpow_add₀ (by norm_num : (10 : ℚ) ≠ 0)]
      congr 1
      ring
    rw [key]
    exact mul_lt_mul_of_pos_right h2 hz

lemma displayOf_eq_half_up (v : ℚ) (d : ℤ) :
    displayOf v d = ⌊scaled v d + 1 / 2⌋ := by
  unfold displayOf
  set x := scaled v d
  by_cases h : x - ⌊x⌋ ≥ 1 / 2
  · rw [if_pos h]
    symm
    rw [Int.floor_eq_iff]
    constructor
    · push_cast
      linarith
    · have := Int.lt_floor_add_one x
      push_cast
      linarith
  · rw [if_neg h]
    symm
    rw [Int.floor_eq_iff]
    push_neg at h
    constructor
    · have := Int.floor_le x
      push_cast
      linarith
    · push_cast
      linarith

/-- C3: the rounding step of the formatter computes `floor(log10 |value|)`,
scales the magnitude so exactly `significant_digits` integer digits remain
(the scaled value lies in `[10^(d-1), 10^d)`), rounds half-up at that
precision — `display = ⌊scaled + 1/2⌋`, which on the sign-stripped magnitude
is ties-away-from-zero, not half-even — and rescales back. -/
theorem C3_round_half_up (v : ℚ) (hv : v ≠ 0) (d : ℤ) (hd : 1 ≤ d) :
    ⌊Real.logb 10 (|v| : ℝ)⌋ = expof10 |v| ∧
    (10 : ℚ) ^ (d - 1) ≤ scaled |v| d ∧ scaled |v| d < (10 : ℚ) ^ d ∧
    roundedValue |v| d = (⌊scaled |v| d + 1 / 2⌋ : ℚ) * 10 ^ (expof10 |v| - d + 1) := by
  have hpos : 0 < |v| := abs_pos.mpr hv
  obtain ⟨h1, h2⟩ := scaled_bounds |v| hpos d
  have hfl := floor_logb_eq_expof10 |v| hpos
  rw [Rat.cast_abs] at hfl
  refine ⟨hfl, h1, h2, ?_⟩
  unfold roundedValue
  rw [displayOf_eq_half_up]

/-- Witness for C3 at `v = 3`, `significant_digits = 1`. -/
theorem C3_round_half_up_witness :
    (3 : ℚ) ≠ 0 ∧ (1 : ℤ) ≤ 1 ∧
      (⌊Real.logb 10 (|(3 : ℚ)| : ℝ)⌋ = expof10 |(3 : ℚ)| ∧
       (10 : ℚ) ^ ((1 : ℤ) - 1) ≤ scaled |(3 : ℚ)| 1 ∧
       scaled |(3 : ℚ)| 1 < (10 : ℚ) ^ (1 : ℤ) ∧
       roundedValue |(3 : ℚ)| 1 =
         (⌊scaled |(3 : ℚ)| 1 + 1 / 2⌋ : ℚ) * 10 ^ (expof10 |(3 : ℚ)| - 1 + 1)) :=
  ⟨by norm_num, le_refl 1, C3_round_half_up 3 (by norm_num) 1 (le_refl 1)⟩

/-- C8: the sign is processed separately from the magnitude: formatting a
positive value yields the bare formatted magnitude (no sign prefix), and
formatting its negation yields exactly `"-"` prepended to that same string,
for every digit count and mode. -/
theorem C8_sign_prepended (v : ℚ) (hv : 0 < v) (d : ℤ) (numeric : Bool) :
    eng v d numeric = some (engBody v d numeric) ∧
    eng (-v) d numeric = some ("-" ++ engBody v d numeric) := by
  constructor
  · unfold eng
    rw [if_neg (ne_of_gt hv), if_neg (not_lt.mpr hv.le), abs_of_pos hv]
    rfl
  · unfold eng
    rw [if_neg (by exact neg_ne_zero.mpr (ne_of_gt hv)),
      if_pos (neg_lt_zero.mpr hv), abs_neg, abs_of_pos hv]

/-- Witness for C8 at `v = 2`, three significant digits, numeric mode. -/
theorem C8_sign_prepended_witness :
    eng 2 3 true = some (engBody 2 3 true) ∧
    eng (-2) 3 true = some ("-" ++ engBody 2 3 true) :=
  C8_sign_prepended 2 (by norm_num) 3 true

lemma expof10_999960 : expof10 (999960 : ℚ) = 5 := by
  unfold expof10
  exact int_log_eq_of_zpow (by norm_num) (by norm_num) (by norm_num)

lemma scaled_999960 : scaled (999960 : ℚ) 3 = 99996 / 100 := by
  unfold scaled
  rw [expof10_999960]
  norm_num

lemma displayOf_999960 : displayOf (999960 : ℚ) 3 = 1000 := by
  simp only [displayOf]
  rw [scaled_999960]
  norm_num

lemma afterAlign_999960 : afterAlign (999960 : ℚ) 3 = 1000 := by
  unfold afterAlign roundedValue alignExp
  rw [expof10_999960, displayOf_999960]
  norm_num

lemma roundHalfEven_c4 : roundHalfEven ((1 : ℚ) * 10 ^ (2 : ℕ)) = 100 := by
  unfold roundHalfEven
  norm_num

lemma fixedDecimal_one_two : fixedDecimal 1 2 = "1.00" := by
  simp only [fixedDecimal, roundHalfEven_c4]
  rfl

lemma engParts_999960 : engParts (999960 : ℚ) 3 = (1, 6, 3) := by
  unfold engParts
  simp only [afterAlign_999960]
  rw [if_pos (by norm_num : (1000 : ℚ) ≥ 1000)]
  unfold alignExp
  rw [expof10_999960]
  norm_num

/-- C4: when the mantissa rescaled into the aligned decade reaches `1000` or
more, the formatter divides it by `1000` and advances the exponent by `3`
(leaving the digit count unchanged); in particular `999960` at three
significant digits rounds up a full decade and renders as `1.00 M`
(resp. `1.00e6` in numeric mode), with mantissa `1`, never a `1000`-mantissa
form. -/
theorem C4_carry_correction (v : ℚ) (d : ℤ) (h : afterAlign v d ≥ 1000) :
    engParts v d = (afterAlign v d / 1000, alignExp (expof10 v) + 3, d) ∧
    eng 999960 3 false = some "1.00 M" ∧
    eng 999960 3 true = some "1.00e6" ∧
    (engParts 999960 3).1 = 1 := by
  refine ⟨?_, ?_, ?_, ?_⟩
  · unfold engParts
    simp only
    rw [if_pos h]
  · unfold eng
    rw [if_neg (by norm_num : ¬(999960 : ℚ) = 0),
      if_neg (by norm_num : ¬(999960 : ℚ) < 0),
      abs_of_pos (by norm_num : (0 : ℚ) < 999960)]
    simp only [engBody]
    rw [engParts_999960]
    show some ("" ++ (fixedDecimal 1 2 ++ " " ++ "M")) = some "1.00 M"
    rw [fixedDecimal_one_two]
    rfl
  · unfold eng
    rw [if_neg (by norm_num : ¬(999960 : ℚ) = 0),
      if_neg (by norm_num : ¬(999960 : ℚ) < 0),
      abs_of_pos (by norm_num : (0 : ℚ) < 999960)]
    simp only [engBody]
    rw [engParts_999960]
    show some ("" ++ (fixedDecimal 1 2 ++ "e" ++ toString (6 : ℤ))) = some "1.00e6"
    rw [fixedDecimal_one_two]
    rfl
  · rw [engParts_999960]

/-- Witness for C4 at `v = 999960`, three significant digits. -/
theorem C4_carry_correction_witness :
    afterAlign (999960 : ℚ) 3 ≥ 1000 ∧
    engParts (999960 : ℚ) 3 =
      (afterAlign (999960 : ℚ) 3 / 1000, alignExp (expof10 999960) + 3, 3) ∧
    eng 999960 3 false = some "1.00 M" := by
  have hge : afterAlign (999960 : ℚ) 3 ≥ 1000 := by rw [afterAlign_999960]
  have h := C4_carry_correction 999960 3 hge
  exact ⟨hge, h.1, h.2.1⟩

lemma prefStart_eq : prefStart = -24 := rfl

lemma prefEnd_eq : prefEnd = 24 := rfl

/-- C5: with `numeric_mode` off, an aligned exponent of exactly `-24` emits
the prefix `y` and exactly `+24` emits `Y`; an aligned exponent below `-24`
or above `+24`, or `numeric_mode` on, instead renders the plain exponential
form `<sign><mantissa>e<exponent>`. -/
theorem C5_prefix_table_boundaries (v : ℚ) (hv : v ≠ 0) (d : ℤ) :
    ((engParts |v| d).2.1 = -24 →
      eng v d false = some ((if v < 0 then "-" else "") ++
        (fixedDecimal (engParts |v| d).1 (precOf (engParts |v| d).2.2) ++ " " ++ "y"))) ∧
    ((engParts |v| d).2.1 = 24 →
      eng v d false = some ((if v < 0 then "-" else "") ++
        (fixedDecimal (engParts |v| d).1 (precOf (engParts |v| d).2.2) ++ " " ++ "Y"))) ∧
    (∀ numeric : Bool,
      (engParts |v| d).2.1 < -24 ∨ 24 < (engParts |v| d).2.1 ∨ numeric = true →
      eng v d numeric = some ((if v < 0 then "-" else "") ++
        (fixedDecimal (engParts |v| d).1 (precOf (engParts |v| d).2.2) ++ "e" ++
          toString (engParts |v| d).2.1))) := by
  refine ⟨?_, ?_, ?_⟩
  · intro h
    unfold eng
    rw [if_neg hv]
    simp only [engBody]
    rw [h]
    rw [if_neg (by decide :
      ¬(false || decide ((-24 : ℤ) < prefStart) || decide ((-24 : ℤ) > prefEnd)) = true)]
    rfl
  · intro h
    unfold eng
    rw [if_neg hv]
    simp only [engBody]
    rw [h]
    rw [if_neg (by decide :
      ¬(false || decide ((24 : ℤ) < prefStart) || decide ((24 : ℤ) > prefEnd)) = true)]
    rfl
  · intro numeric hcase
    unfold eng
    rw [if_neg hv]
    simp only [engBody]
    have hcond : (numeric || decide ((engParts |v| d).2.1 < prefStart) ||
        decide ((engParts |v| d).2.1 > prefEnd)) = true := by
      simp only [Bool.or_eq_true, decide_eq_true_eq, prefStart_eq, prefEnd_eq]
      rcases hcase with h | h | h
      · exact Or.inl (Or.inr h)
      · exact Or.inr h
      · exact Or.inl (Or.inl h)
    rw [if_pos hcond]

lemma expof10_yocto : expof10 (1 / 10 ^ 24 : ℚ) = -24 := by
  unfold expof10
  apply int_log_eq_of_zpow (by norm_num)
  · norm_num
  · norm_num

lemma engParts_yocto : engParts (1 / 10 ^ 24 : ℚ) 3 = (1, -24, 3) := by
  have hs : scaled (1 / 10 ^ 24 : ℚ) 3 = 100 := by
    unfold scaled
    rw [expof10_yocto]
    norm_num
  have hd : displayOf (1 / 10 ^ 24 : ℚ) 3 = 100 := by
    simp only [displayOf]
    rw [hs]
    norm_num
  have ha : afterAlign (1 / 10 ^ 24 : ℚ) 3 = 1000 := by
    unfold afterAlign roundedValue alignExp
    rw [expof10_yocto, hd]
    norm_num
  unfold engParts
  simp only [ha]
  rw [if_pos (by norm_num : (1000 : ℚ) ≥ 1000)]
  unfold alignExp
  rw [expof10_yocto]
  norm_num

/-- Witness for C5 at `v = 10⁻²⁴`, whose aligned exponent is exactly
`-24`. -/
theorem C5_prefix_table_boundaries_witness :
    (engParts |(1 / 10 ^ 24 : ℚ)| 3).2.1 = -24 ∧
    eng (1 / 10 ^ 24) 3 false = some ((if (1 / 10 ^ 24 : ℚ) < 0 then "-" else "") ++
      (fixedDecimal (engParts |(1 / 10 ^ 24 : ℚ)| 3).1
        (precOf (engParts |(1 / 10 ^ 24 : ℚ)| 3).2.2) ++ " " ++ "y")) := by
  have habs : |(1 / 10 ^ 24 : ℚ)| = (1 / 10 ^ 24 : ℚ) := abs_of_pos (by norm_num)
  have h : (engParts |(1 / 10 ^ 24 : ℚ)| 3).2.1 = -24 := by
    rw [habs, engParts_yocto]
  exact ⟨h, (C5_prefix_table_boundaries (1 / 10 ^ 24) (by norm_num) 3).1 h⟩

lemma displayOf_bounds (v : ℚ) (hv : 0 < v) (d : ℤ) (hd : 1 ≤ d) :
    (10 : ℚ) ^ (d - 1) ≤ (displayOf v d : ℚ) ∧ (displayOf v d : ℚ) ≤ (10 : ℚ) ^ d := by
  obtain ⟨h1, h2⟩ := scaled_bounds v hv d
  rw [displayOf_eq_half_up]
  obtain ⟨k, hk⟩ : ∃ k : ℕ, d - 1 = (k : ℤ) := ⟨(d - 1).toNat, by omega⟩
  obtain ⟨m, hm⟩ : ∃ m : ℕ, d = (m : ℤ) := ⟨d.toNat, by omega⟩
  have hzk : (10 : ℚ) ^ (d - 1) = ((10 ^ k : ℤ) : ℚ) := by
    rw [hk, zpow_natCast]
    push_cast
    ring
  have hzm : (10 : ℚ) ^ d = ((10 ^ m : ℤ) : ℚ) := by
    rw [hm, zpow_natCast]
    push_cast
    ring
  constructor
  · rw [hzk] at h1 ⊢
    have hle : (10 ^ k : ℤ) ≤ ⌊scaled v d + 1 / 2⌋ := by
      apply Int.le_floor.mpr
      push_cast
      push_cast at h1
      linarith
    exact_mod_cast hle
  · rw [hzm] at h2 ⊢
    have hlt : ⌊scaled v d + 1 / 2⌋ < 10 ^ m + 1 := by
      apply Int.floor_lt.mpr
      push_cast
      push_cast at h2
      linarith
    have hle : ⌊scaled v d + 1 / 2⌋ ≤ 10 ^ m := by omega
    exact_mod_cast hle

lemma roundedValue_bounds (v : ℚ) (hv : 0 < v) (d : ℤ) (hd : 1 ≤ d) :
    (10 : ℚ) ^ expof10 v ≤ roundedValue v d ∧
      roundedValue v d ≤ (10 : ℚ) ^ (expof10 v + 1) := by
  obtain ⟨h1, h2⟩ := displayOf_bounds v hv d hd
  unfold roundedValue
  have hz : (0 : ℚ) < 10 ^ (expof10 v - d + 1) := zpow_pos (by norm_num) _
  constructor
  · have key : (10 : ℚ) ^ expof10 v = 10 ^ (d - 1) * 10 ^ (expof10 v - d + 1) := by
      rw [← zpow_add₀ (by norm_num : (10 : ℚ) ≠ 0)]
      congr 1
      ring
    rw [key]
    exact mul_le_mul_of_nonneg_right h1 hz.le
  · have key : (10 : ℚ) ^ (expof10 v + 1) = 10 ^ d * 10 ^ (expof10 v - d + 1) := by
      rw [← zpow_add₀ (by norm_num : (10 : ℚ) ≠ 0)]
      congr 1
      ring
    rw [key]
    exact mul_le_mul_of_nonneg_right h2 hz.le

lemma alignExp_facts (e : ℤ) :
    alignExp e % 3 = 0 ∧ 0 ≤ e - alignExp e ∧ e - alignExp e ≤ 3 ∧
      (e = 0 → alignExp e = -3) := by
  unfold alignExp
  split_ifs with h <;> omega

lemma afterAlign_bounds (v : ℚ) (hv : 0 < v) (d : ℤ) (hd : 1 ≤ d) :
    (10 : ℚ) ^ (expof10 v - alignExp (expof10 v)) ≤ afterAlign v d ∧
      afterAlign v d ≤ (10 : ℚ) ^ (expof10 v - alignExp (expof10 v) + 1) := by
  obtain ⟨h1, h2⟩ := roundedValue_bounds v hv d hd
  unfold afterAlign
  have hz : (0 : ℚ) < 10 ^ (-alignExp (expof10 v)) := zpow_pos (by norm_num) _
  constructor
  · have key : (10 : ℚ) ^ (expof10 v - alignExp (expof10 v)) =
        10 ^ expof10 v * 10 ^ (-alignExp (expof10 v)) := by
      rw [sub_eq_add_neg, zpow_add₀ (by norm_num : (10 : ℚ) ≠ 0)]
    rw [key]
    exact mul_le_mul_of_nonneg_right h1 hz.le
  · have key : (10 : ℚ) ^ (expof10 v - alignExp (expof10 v) + 1) =
        10 ^ (expof10 v + 1) * 10 ^ (-alignExp (expof10 v)) := by
      rw [show expof10 v - alignExp (expof10 v) + 1 =
            expof10 v + 1 + -alignExp (expof10 v) from by ring,
        zpow_add₀ (by norm_num : (10 : ℚ) ≠ 0)]
    rw [key]
    exact mul_le_mul_of_nonneg_right h2 hz.le

lemma engParts_exp_mantissa (v : ℚ) (hv : 0 < v) (d : ℤ) (hd : 1 ≤ d) :
    (engParts v d).2.1 % 3 = 0 ∧ 1 ≤ (engParts v d).1 ∧ (engParts v d).1 < 1000 ∧
      (expof10 v = 0 → (engParts v d).2.1 = 0) := by
  obtain ⟨ha1, ha2⟩ := afterAlign_bounds v hv d hd
  obtain ⟨hm3, hk0, hk3, hzero⟩ := alignExp_facts (expof10 v)
  have hub : (10 : ℚ) ^ (expof10 v - alignExp (expof10 v) + 1) ≤ 10 ^ (4 : ℤ) :=
    zpow_le_zpow_right₀ (by norm_num) (by omega)
  have hlb : (10 : ℚ) ^ (0 : ℤ) ≤ 10 ^ (expof10 v - alignExp (expof10 v)) :=
    zpow_le_zpow_right₀ (by norm_num) (by omega)
  have hub' : afterAlign v d ≤ 10000 := by
    have h4 : ((10 : ℚ) ^ (4 : ℤ)) = 10000 := by norm_num
    linarith
  have hlb' : (1 : ℚ) ≤ afterAlign v d := by
    have h0' : ((10 : ℚ) ^ (0 : ℤ)) = 1 := by norm_num
    linarith
  unfold engParts
  simp only
  by_cases hc : afterAlign v d ≥ 1000
  · rw [if_pos hc]
    dsimp only
    refine ⟨by omega, by linarith, by linarith, fun h0 => by
      have := hzero h0
      omega⟩
  · rw [if_neg hc]
    push_neg at hc
    have hnz : ¬ expof10 v = 0 := by
      intro h0
      have he3 := hzero h0
      rw [h0] at he3
      have h1000 : (10 : ℚ) ^ (expof10 v - alignExp (expof10 v)) = 1000 := by
        rw [h0, he3]
        norm_num
      linarith
    split_ifs <;> dsimp only <;>
      exact ⟨by omega, by linarith, by linarith, fun h0 => absurd h0 hnz⟩

/-- C9: for every nonzero input, after decade alignment and carry correction
the final exponent is a multiple of 3 and the displayed mantissa lies in
`[1, 1000)`; hence whenever the prefix branch is taken the table index
`(expof10 - (-24))/3` lies within `0..16`, the bounds of the 17-entry prefix
array.  This includes inputs with base-10 exponent `0`, which the alignment
step first maps to `-3` before the carry step restores the exponent to `0`. -/
theorem C9_prefix_index_in_bounds (v : ℚ) (hv : v ≠ 0) (d : ℤ) (hd : 1 ≤ d) :
    (engParts |v| d).2.1 % 3 = 0 ∧
    1 ≤ (engParts |v| d).1 ∧ (engParts |v| d).1 < 1000 ∧
    (prefStart ≤ (engParts |v| d).2.1 → (engParts |v| d).2.1 ≤ prefEnd →
      0 ≤ ((engParts |v| d).2.1 - prefStart) / 3 ∧
      ((engParts |v| d).2.1 - prefStart) / 3 ≤ 16 ∧
      symList.length = 17) ∧
    alignExp 0 = -3 ∧
    (expof10 |v| = 0 → (engParts |v| d).2.1 = 0) := by
  obtain ⟨h3, hm1, hm2, h0⟩ := engParts_exp_mantissa |v| (abs_pos.mpr hv) d hd
  refine ⟨h3, hm1, hm2, ?_, by decide, h0⟩
  rw [prefStart_eq, prefEnd_eq]
  intro hlo hhi
  refine ⟨by omega, by omega, by decide⟩

/-- Witness for C9 at `v = 5`, two significant digits. -/
theorem C9_prefix_index_in_bounds_witness :
    (5 : ℚ) ≠ 0 ∧ (1 : ℤ) ≤ 2 ∧
      ((engParts |(5 : ℚ)| 2).2.1 % 3 = 0 ∧
       1 ≤ (engParts |(5 : ℚ)| 2).1 ∧ (engParts |(5 : ℚ)| 2).1 < 1000 ∧
       (prefStart ≤ (engParts |(5 : ℚ)| 2).2.1 → (engParts |(5 : ℚ)| 2).2.1 ≤ prefEnd →
         0 ≤ ((engParts |(5 : ℚ)| 2).2.1 - prefStart) / 3 ∧
         ((engParts |(5 : ℚ)| 2).2.1 - prefStart) / 3 ≤ 16 ∧
         symList.length = 17) ∧
       alignExp 0 = -3 ∧
       (expof10 |(5 : ℚ)| = 0 → (engParts |(5 : ℚ)| 2).2.1 = 0)) :=
  ⟨by norm_num, by norm_num,
    C9_prefix_index_in_bounds 5 (by norm_num) 2 (by norm_num)⟩

end CompL
